import Mathlib

/-!
# The `App` component of the UAST explorer (`src/App.js`)

A shallow embedding of the React component `App`: its state object, the
instance field `mark`, its event handlers and its two derived getters.

* `setState` is the shallow merge of the given fields into the state object.
* The collaborators the component talks to (the editor, the tree viewer and
  the parse service) are not part of `src/App.js`.  Every call the component
  makes on them is appended, in program order, to the `calls` log of the
  component, and the little they answer is modelled from the specification.
* The promise returned by `api.parse` is a request that stays in `pending`
  until one of its two callbacks is delivered as a later, separate event.
-/

namespace App

/-! ## Language registry -/

/-- Modelled from the spec: an entry of the language registry (the module
`./languages` is not among the sources): a display name and an editor mode.
The synthetic entry `auto` of `initialState` has a name and no mode. -/
structure LanguageEntry where
  name : String
  mode : Option String
  deriving DecidableEq, Repr

/-- A plain JavaScript object used as a dictionary from language ids to
entries: its own properties.  Language ids are taken to differ from the member
names of `Object.prototype`, so that `hasOwnProperty` is the inherited method
and a property read that succeeds reads an own property. -/
abbrev Registry := List (String × LanguageEntry)

/-- Assignment `o[k] = v` on a dictionary object. -/
def setProp (o : Registry) (k : String) (v : LanguageEntry) : Registry :=
  if o.any (fun p => p.1 == k) then
    o.map (fun p => if p.1 == k then (k, v) else p)
  else
    o ++ [(k, v)]

/-- The call `Object.assign(target, source)`: every own property of `source`
is assigned on `target`. -/
def assign (target source : Registry) : Registry :=
  source.foldl (fun o p => setProp o p.1 p.2) target

/-! ## Session state -/

/-- The state object of the component (`this.state`).  `Tree` is the type of
the syntax trees delivered by the parse service, opaque to the component; a
tree is an object, hence truthy, and `ast = none` is `undefined`. -/
structure State (Tree : Type) where
  languages : Registry
  actualLanguage : String
  loading : Bool
  selectedLanguage : String
  code : String
  ast : Option Tree
  dirty : Bool
  errors : List String

/-- The constant `initialState`, for the registry exported by `./languages`. -/
def initialState (Tree : Type) (languages : Registry) : State Tree where
  languages := assign [("auto", { name := "(auto)", mode := none })] languages
  actualLanguage := "python"
  loading := false
  selectedLanguage := "auto"
  code := ""
  ast := none
  dirty := false
  errors := []

/-- The method `hasLanguage`: `this.state.languages.hasOwnProperty(lang)`. -/
def hasLanguage {Tree : Type} (s : State Tree) (lang : String) : Bool :=
  (s.languages.lookup lang).isSome

/-- The getter `currentLanguage`. -/
def currentLanguage {Tree : Type} (s : State Tree) : String :=
  let selectedLanguage := s.selectedLanguage
  let actualLanguage := s.actualLanguage
  let selectedLanguage :=
    if selectedLanguage = "auto" then actualLanguage else selectedLanguage
  selectedLanguage

/-- The getter `languageMode`: `this.state.languages[this.currentLanguage].mode`.
The outer `none` stands for a read that finds no own entry for the effective
language; the inner option is the `mode` field, absent on the `auto` entry. -/
def languageMode {Tree : Type} (s : State Tree) : Option (Option String) :=
  (s.languages.lookup (currentLanguage s)).map (fun e => e.mode)

/-- The callback of `Array.prototype.filter` receives the element and its
index; `filterFrom p i xs` filters `xs` whose first element has index `i`. -/
def filterFrom {α : Type} (p : α → Nat → Bool) : Nat → List α → List α
  | _, [] => []
  | i, x :: xs =>
    if p x i then x :: filterFrom p (i + 1) xs else filterFrom p (i + 1) xs

/-- The array method `xs.filter((x, i) => p(x, i))`. -/
def filter {α : Type} (p : α → Nat → Bool) (xs : List α) : List α :=
  filterFrom p 0 xs

/-! ## Collaborators -/

/-- Modelled from the spec: a highlighted range of the editor surface, as
created by `selectCode(from, to)`; `handle` identifies the mark object that
was returned. -/
structure Mark where
  handle : Nat
  from_ : Nat
  to_ : Nat
  deriving DecidableEq, Repr

/-- Modelled from the spec: the part of the editor surface (the component
`./components/Editor` is not among the sources) that the handlers rely on:
the marks that are live, and how many marks were created so far. -/
structure Editor where
  created : Nat
  live : List Mark
  deriving DecidableEq, Repr

/-- Modelled from the spec: `editor.selectCode(from, to)` marks the range and
returns the handle of the new mark. -/
def Editor.selectCode (e : Editor) (from_ to_ : Nat) : Nat × Editor :=
  (e.created,
    { created := e.created + 1
      live := e.live ++ [{ handle := e.created, from_ := from_, to_ := to_ }] })

/-- Modelled from the spec: `mark.clear()` ends the mark with this handle; on
a mark that was cleared before it has no effect. -/
def Editor.clear (e : Editor) (handle : Nat) : Editor :=
  { e with live := e.live.filter (fun m => m.handle != handle) }

/-- A call of the component on one of its collaborators. -/
inductive Call where
  | parse (language code : String)
  | markClear (handle : Nat)
  | selectCode (from_ to_ : Nat)
  | selectNode (pos : Nat)
  deriving DecidableEq, Repr

/-! ## The component -/

/-- A mounted `App`: the state object, the instance field `mark` (`none` is
`null`), the editor it drives, the parse requests whose promise has not been
settled yet, the number of requests started so far, and the log of calls. -/
structure Component (Tree : Type) where
  state : State Tree
  mark : Option Nat
  editor : Editor
  pending : List Nat
  requests : Nat
  calls : List Call

/-- The constructor of `App`, in front of an editor without marks. -/
def mount (Tree : Type) (languages : Registry) : Component Tree where
  state := initialState Tree languages
  mark := none
  editor := { created := 0, live := [] }
  pending := []
  requests := 0
  calls := []

/-- The handler `onLanguageChanged(e)`, with `value = e.target.value`. -/
def onLanguageChanged {Tree : Type} (c : Component Tree) (value : String) :
    Component Tree :=
  let selectedLanguage := value
  let selectedLanguage :=
    if !hasLanguage c.state selectedLanguage then "auto" else selectedLanguage
  { c with state := { c.state with selectedLanguage := selectedLanguage } }

/-- The synchronous part of the handler `onRunParser`: the state update and
the call of `api.parse`, whose promise becomes the newest pending request. -/
def onRunParser {Tree : Type} (c : Component Tree) : Component Tree :=
  let s := { c.state with loading := true, errors := [] }
  { c with
    state := s
    calls := c.calls ++ [Call.parse (currentLanguage s) s.code]
    pending := c.pending ++ [c.requests]
    requests := c.requests + 1 }

/-- The `then` callback of `onRunParser`, delivered for request `id` with the
tree `ast`.  A promise is settled once: nothing runs for a request that is
not pending. -/
def parseResolved {Tree : Type} (c : Component Tree) (id : Nat) (ast : Tree) :
    Component Tree :=
  if id ∈ c.pending then
    { c with
      state := { c.state with loading := false, ast := some ast }
      pending := c.pending.filter (fun r => r != id) }
  else c

/-- The `catch` callback of `onRunParser`, delivered for request `id` with
the list `errors`. -/
def parseRejected {Tree : Type} (c : Component Tree) (id : Nat)
    (errors : List String) : Component Tree :=
  if id ∈ c.pending then
    { c with
      state := { c.state with loading := false, errors := errors }
      pending := c.pending.filter (fun r => r != id) }
  else c

/-- The handler `onErrorRemoved(idx)`. -/
def onErrorRemoved {Tree : Type} (c : Component Tree) (idx : Nat) :
    Component Tree :=
  { c with
    state := { c.state with
      errors := filter (fun _ i => i != idx) c.state.errors } }

/-- The statement `if (this.mark) { this.mark.clear(); }`, shared by
`onNodeSelected` and `clearNodeSelection`. -/
def clearMark {Tree : Type} (c : Component Tree) : Component Tree :=
  match c.mark with
  | some h =>
    { c with editor := c.editor.clear h, calls := c.calls ++ [Call.markClear h] }
  | none => c

/-- The handler `onNodeSelected(from, to)`. -/
def onNodeSelected {Tree : Type} (c : Component Tree) (from_ to_ : Nat) :
    Component Tree :=
  let c := clearMark c
  let r := c.editor.selectCode from_ to_
  { c with
    mark := some r.1
    editor := r.2
    calls := c.calls ++ [Call.selectCode from_ to_] }

/-- The handler `clearNodeSelection`. -/
def clearNodeSelection {Tree : Type} (c : Component Tree) : Component Tree :=
  clearMark c

/-- The handler `onCursorChanged(pos)`. -/
def onCursorChanged {Tree : Type} (c : Component Tree) (pos : Nat) :
    Component Tree :=
  if c.state.ast.isSome then
    { c with calls := c.calls ++ [Call.selectNode pos] }
  else c

/-- The handler `onCodeChange(code)`. -/
def onCodeChange {Tree : Type} (c : Component Tree) (code : String) :
    Component Tree :=
  { c with state := { c.state with code := code, dirty := true } }

/-- The events the component reacts to: the callbacks wired up in `render`
and the two callbacks of a parse request. -/
inductive Event (Tree : Type) where
  | languageChanged (value : String)
  | runParser
  | resolved (id : Nat) (ast : Tree)
  | rejected (id : Nat) (errors : List String)
  | errorRemoved (idx : Nat)
  | nodeSelected (from_ to_ : Nat)
  | nodeSelectionCleared
  | cursorChanged (pos : Nat)
  | codeChange (code : String)

/-- One event, handled to completion. -/
def step {Tree : Type} (c : Component Tree) : Event Tree → Component Tree
  | .languageChanged v => onLanguageChanged c v
  | .runParser => onRunParser c
  | .resolved id ast => parseResolved c id ast
  | .rejected id errors => parseRejected c id errors
  | .errorRemoved idx => onErrorRemoved c idx
  | .nodeSelected from_ to_ => onNodeSelected c from_ to_
  | .nodeSelectionCleared => clearNodeSelection c
  | .cursorChanged pos => onCursorChanged c pos
  | .codeChange code => onCodeChange c code

/-- The events of a list, handled one after the other. -/
def run {Tree : Type} (c : Component Tree) (events : List (Event Tree)) :
    Component Tree :=
  events.foldl step c

/-- The component after the events of a session that began with the mount. -/
def session (Tree : Type) (languages : Registry) (events : List (Event Tree)) :
    Component Tree :=
  run (mount Tree languages) events

/-- The node-pick event of a range given as a pair. -/
def pick {Tree : Type} (range : Nat × Nat) : Event Tree :=
  Event.nodeSelected range.1 range.2

/-- The component after a sequence of node picks, each given by its range. -/
def afterPicks {Tree : Type} (c : Component Tree) (picks : List (Nat × Nat)) :
    Component Tree :=
  run c (picks.map pick)

/-- Two parse requests started one right after the other: the request
numbered `c.requests` and then the request numbered `c.requests + 1`. -/
def startTwo {Tree : Type} (c : Component Tree) : Component Tree :=
  onRunParser (onRunParser c)

/-- The marks of the editor are under the control of the component: at most
one is live, and a live one is the mark held in the field `mark`. -/
def SingleMark {Tree : Type} (c : Component Tree) : Prop :=
  c.editor.live.length ≤ 1 ∧ ∀ m ∈ c.editor.live, c.mark = some m.handle

/-! ## Example components -/

/-- The registry of the end-to-end scenario: `python` and `go`. -/
def demoLanguages : Registry :=
  [("python", { name := "Python", mode := some "py" }),
   ("go", { name := "Go", mode := some "go" })]

/-- A freshly mounted component whose trees are numbers. -/
def demo : Component Nat := mount Nat demoLanguages

/-- The component `demo` after a failed parse that reported three errors. -/
def demoFailed : Component Nat :=
  parseRejected (onRunParser demo) 0 ["e1", "e2", "e3"]

/-- The component `demo` after a successful parse that delivered the tree `7`. -/
def demoParsed : Component Nat :=
  parseResolved (onRunParser demo) 0 7

/-! ## Auxiliary facts -/

theorem lookup_isSome_iff_key (o : Registry) (k : String) :
    (o.lookup k).isSome = true ↔ k ∈ o.map Prod.fst := by
  induction o with
  | nil => simp
  | cons p o ih =>
    obtain ⟨k1, e⟩ := p
    by_cases hk : k = k1
    · subst hk
      simp [List.lookup]
    · have hb : (k == k1) = false := by simpa using hk
      simp [List.lookup, hb, ih, hk]

theorem filterFrom_above {α : Type} (idx : Nat) (xs : List α) :
    ∀ i, idx < i → filterFrom (fun _ j => j != idx) i xs = xs := by
  induction xs with
  | nil => intro i _; rfl
  | cons x xs ih =>
    intro i hi
    have hne : (i != idx) = true := by simpa using (Nat.ne_of_gt hi)
    simp only [filterFrom, hne, if_true]
    rw [ih (i + 1) (Nat.lt_succ_of_lt hi)]

theorem filterFrom_eraseIdx {α : Type} (idx : Nat) (xs : List α) :
    ∀ i, i ≤ idx → filterFrom (fun _ j => j != idx) i xs = xs.eraseIdx (idx - i) := by
  induction xs with
  | nil => intro i _; rfl
  | cons x xs ih =>
    intro i hi
    rcases Nat.eq_or_lt_of_le hi with heq | hlt
    · subst heq
      simp [filterFrom, filterFrom_above i xs (i + 1) (Nat.lt_succ_self i)]
    · have hne : (i != idx) = true := by simpa using (Nat.ne_of_lt hlt)
      have hsub : idx - i = (idx - (i + 1)) + 1 := by omega
      simp only [filterFrom, hne, if_true]
      rw [ih (i + 1) hlt, hsub, List.eraseIdx_cons_succ]

theorem filter_ne_eq_eraseIdx {α : Type} (idx : Nat) (xs : List α) :
    filter (fun _ j => j != idx) xs = xs.eraseIdx idx := by
  unfold filter
  rw [filterFrom_eraseIdx idx xs 0 (Nat.zero_le idx), Nat.sub_zero]

theorem clearMark_live_nil {Tree : Type} (c : Component Tree) (h : SingleMark c) :
    (clearMark c).editor.live = [] := by
  obtain ⟨hlen, hall⟩ := h
  unfold clearMark
  cases hm : c.mark with
  | none =>
    cases hl : c.editor.live with
    | nil => simp [hl]
    | cons m ms =>
      have := hall m (by simp [hl])
      rw [hm] at this
      cases this
  | some k =>
    simp only [Editor.clear]
    rw [List.filter_eq_nil_iff]
    intro m hmem
    have := hall m hmem
    rw [hm] at this
    cases this
    simp

theorem onNodeSelected_live {Tree : Type} (c : Component Tree) (from_ to_ : Nat)
    (h : SingleMark c) :
    (onNodeSelected c from_ to_).editor.live
      = [{ handle := c.editor.created, from_ := from_, to_ := to_ }] ∧
    (onNodeSelected c from_ to_).mark = some c.editor.created := by
  have hnil := clearMark_live_nil c h
  have hcreated : (clearMark c).editor.created = c.editor.created := by
    unfold clearMark
    cases c.mark <;> rfl
  simp [onNodeSelected, Editor.selectCode, hnil, hcreated]

theorem singleMark_step {Tree : Type} (c : Component Tree) (e : Event Tree)
    (h : SingleMark c) : SingleMark (step c e) := by
  cases e with
  | languageChanged v => exact h
  | runParser => exact h
  | resolved id ast =>
    simp only [step, parseResolved]
    split
    · exact h
    · exact h
  | rejected id errors =>
    simp only [step, parseRejected]
    split
    · exact h
    · exact h
  | errorRemoved idx => exact h
  | nodeSelected from_ to_ =>
    have hl := onNodeSelected_live c from_ to_ h
    simp only [step]
    refine ⟨?_, ?_⟩
    · rw [hl.1]
      simp
    · intro m hm
      rw [hl.1] at hm
      rw [hl.2]
      simp at hm
      rw [hm]
  | nodeSelectionCleared =>
    have hl := clearMark_live_nil c h
    simp only [step, clearNodeSelection]
    refine ⟨?_, ?_⟩
    · rw [hl]
      simp
    · intro m hm
      rw [hl] at hm
      cases hm
  | cursorChanged pos =>
    simp only [step, onCursorChanged]
    split
    · exact h
    · exact h
  | codeChange code => exact h

theorem singleMark_run {Tree : Type} (events : List (Event Tree)) :
    ∀ c : Component Tree, SingleMark c → SingleMark (run c events) := by
  induction events with
  | nil => intro c h; exact h
  | cons e es ih =>
    intro c h
    exact ih (step c e) (singleMark_step c e h)

theorem actualLanguage_step {Tree : Type} (c : Component Tree) (e : Event Tree) :
    (step c e).state.actualLanguage = c.state.actualLanguage := by
  cases e with
  | resolved id ast =>
    simp only [step, parseResolved]
    split <;> rfl
  | rejected id errors =>
    simp only [step, parseRejected]
    split <;> rfl
  | nodeSelected from_ to_ =>
    simp only [step, onNodeSelected, clearMark]
    cases c.mark <;> rfl
  | nodeSelectionCleared =>
    simp only [step, clearNodeSelection, clearMark]
    cases c.mark <;> rfl
  | cursorChanged pos =>
    simp only [step, onCursorChanged]
    split <;> rfl
  | _ => rfl

theorem actualLanguage_run {Tree : Type} (events : List (Event Tree)) :
    ∀ c : Component Tree, (run c events).state.actualLanguage = c.state.actualLanguage := by
  induction events with
  | nil => intro c; rfl
  | cons e es ih =>
    intro c
    exact (ih (step c e)).trans (actualLanguage_step c e)

theorem run_append {Tree : Type} (c : Component Tree) (xs ys : List (Event Tree)) :
    run c (xs ++ ys) = run (run c xs) ys := by
  simp [run, List.foldl_append]

/-! ## Language resolution -/

/-- C2: when the value `v` handed to `onLanguageChanged` is not a key of the
registry `state.languages`, the selected language becomes `auto` and the
effective language `currentLanguage` is the detected language
`actualLanguage`, which the handler leaves as it was. -/
theorem onLanguageChanged_unknown_selects_auto {Tree : Type} (c : Component Tree)
    (v : String) (hv : v ∉ c.state.languages.map Prod.fst) :
    (onLanguageChanged c v).state.selectedLanguage = "auto" ∧
    currentLanguage (onLanguageChanged c v).state
      = (onLanguageChanged c v).state.actualLanguage ∧
    (onLanguageChanged c v).state.actualLanguage = c.state.actualLanguage := by
  have hno : hasLanguage c.state v = false := by
    unfold hasLanguage
    cases h : (c.state.languages.lookup v).isSome with
    | false => rfl
    | true => exact absurd ((lookup_isSome_iff_key _ _).1 h) hv
  simp [onLanguageChanged, hno, currentLanguage]

/-- Witness of C2 on the mounted example: `cobol` is not a language of the
registry. -/
theorem onLanguageChanged_unknown_selects_auto_witness :
    (onLanguageChanged demo "cobol").state.selectedLanguage = "auto" ∧
    currentLanguage (onLanguageChanged demo "cobol").state = "python" := by
  have h := onLanguageChanged_unknown_selects_auto demo "cobol" (by decide)
  exact ⟨h.1, h.2.1.trans h.2.2⟩

/-- C3: `currentLanguage` is `actualLanguage` when `selectedLanguage` is
`auto` and `selectedLanguage` otherwise (selected `auto` with detected `go`
gives `go`); `languageMode` is the `mode` field of the registry entry of
`currentLanguage`; both are functions of the three state fields
`selectedLanguage`, `actualLanguage` and `languages` alone, so a change of the
detected language shows in the next read. -/
theorem currentLanguage_languageMode_derived {Tree : Type} (s : State Tree) :
    (s.selectedLanguage = "auto" → currentLanguage s = s.actualLanguage) ∧
    (s.selectedLanguage ≠ "auto" → currentLanguage s = s.selectedLanguage) ∧
    currentLanguage { s with selectedLanguage := "auto", actualLanguage := "go" }
      = "go" ∧
    (∀ e : LanguageEntry, s.languages.lookup (currentLanguage s) = some e →
      languageMode s = some e.mode) ∧
    (∀ detected : String, s.selectedLanguage = "auto" →
      currentLanguage { s with actualLanguage := detected } = detected) ∧
    (∀ s2 : State Tree, s2.selectedLanguage = s.selectedLanguage →
      s2.actualLanguage = s.actualLanguage → s2.languages = s.languages →
      currentLanguage s2 = currentLanguage s ∧ languageMode s2 = languageMode s) := by
  refine ⟨?_, ?_, ?_, ?_, ?_, ?_⟩
  · intro h
    simp [currentLanguage, h]
  · intro h
    simp [currentLanguage, h]
  · simp [currentLanguage]
  · intro e he
    simp [languageMode, he]
  · intro detected h
    simp [currentLanguage, h]
  · intro s2 h1 h2 h3
    simp [languageMode, currentLanguage, h1, h2, h3]

/-- Witness of C3 on the mounted example: the selection is `auto`, python is
detected, and the mode is the one of the registry entry of python. -/
theorem currentLanguage_languageMode_derived_witness :
    currentLanguage demo.state = "python" ∧
    languageMode demo.state = some (some "py") ∧
    currentLanguage (onLanguageChanged demo "go").state = "go" := by
  have h := currentLanguage_languageMode_derived demo.state
  have h2 := currentLanguage_languageMode_derived (onLanguageChanged demo "go").state
  exact ⟨h.1 (by decide),
    h.2.2.2.1 { name := "Python", mode := some "py" } (by decide),
    h2.2.1 (by decide)⟩

/-! ## Parse requests -/

/-- C4: whatever the errors of the state, right after `onRunParser` has
started a parse (its request is pending and nothing was delivered for it)
`errors` is the empty list and `loading` is true. -/
theorem onRunParser_clears_errors {Tree : Type} (c : Component Tree) :
    (onRunParser c).state.errors = [] ∧
    (onRunParser c).state.loading = true ∧
    c.requests ∈ (onRunParser c).pending := by
  simp [onRunParser]

/-- Witness of C4: three errors are on display when the next parse starts. -/
theorem onRunParser_clears_errors_witness :
    demoFailed.state.errors.length = 3 ∧
    (onRunParser demoFailed).state.errors = [] ∧
    (onRunParser demoFailed).state.loading = true :=
  ⟨by decide, (onRunParser_clears_errors demoFailed).1,
    (onRunParser_clears_errors demoFailed).2.1⟩

/-- C5: when `ast` is the tree `T`, as it is after a successful parse, the
start of a further parse by `onRunParser` keeps `ast = T`, and so does the
failure callback of that parse, delivered with any list of errors, which takes
effect: it stores the errors and ends the loading. -/
theorem failed_parse_keeps_ast {Tree : Type} (c : Component Tree) (T : Tree)
    (errors : List String) (hT : c.state.ast = some T) :
    (onRunParser c).state.ast = some T ∧
    (parseRejected (onRunParser c) c.requests errors).state.ast = some T ∧
    (parseRejected (onRunParser c) c.requests errors).state.errors = errors ∧
    (parseRejected (onRunParser c) c.requests errors).state.loading = false := by
  simp [onRunParser, parseRejected, hT]

/-- Witness of C5: the tree `7` of a successful parse survives a second parse
that fails with one error. -/
theorem failed_parse_keeps_ast_witness :
    demoParsed.state.ast = some 7 ∧
    (parseRejected (onRunParser demoParsed) 1 ["unexpected token"]).state.ast = some 7 ∧
    (parseRejected (onRunParser demoParsed) 1 ["unexpected token"]).state.errors
      = ["unexpected token"] := by
  have h := failed_parse_keeps_ast demoParsed 7 ["unexpected token"] (by decide)
  exact ⟨by decide, h.2.1, h.2.2.1⟩

/-! ## Error log -/

/-- C7: for an index `idx` inside the list `errors`, `onErrorRemoved(idx)`
sets `errors` to the entries before `idx` followed by the entries after
`idx`: the list is one shorter, the entries below `idx` keep their position,
the entries above `idx` move down by one, and the rest of the state is
untouched; removing index 1 from `[e1, e2, e3]` gives `[e1, e3]`. -/
theorem onErrorRemoved_removes_entry {Tree : Type} (c : Component Tree)
    (idx : Nat) (hidx : idx < c.state.errors.length) :
    (onErrorRemoved c idx).state.errors
      = c.state.errors.take idx ++ c.state.errors.drop (idx + 1) ∧
    (onErrorRemoved c idx).state.errors.length + 1 = c.state.errors.length ∧
    (∀ j, j < idx → (onErrorRemoved c idx).state.errors[j]? = c.state.errors[j]?) ∧
    (∀ j, idx ≤ j →
      (onErrorRemoved c idx).state.errors[j]? = c.state.errors[j + 1]?) ∧
    (onErrorRemoved c idx).state
      = { c.state with errors := (onErrorRemoved c idx).state.errors } ∧
    (∀ e1 e2 e3 : String, c.state.errors = [e1, e2, e3] → idx = 1 →
      (onErrorRemoved c idx).state.errors = [e1, e3]) := by
  have herr : (onErrorRemoved c idx).state.errors = c.state.errors.eraseIdx idx := by
    simp [onErrorRemoved, filter_ne_eq_eraseIdx]
  refine ⟨?_, ?_, ?_, ?_, ?_, ?_⟩
  · rw [herr, List.eraseIdx_eq_take_drop_succ]
  · rw [herr, List.length_eraseIdx]
    simp [hidx]
    omega
  · intro j hj
    rw [herr, List.getElem?_eraseIdx]
    simp [hj]
  · intro j hj
    rw [herr, List.getElem?_eraseIdx]
    simp [Nat.not_lt.2 hj]
  · rfl
  · intro e1 e2 e3 h3 h1
    rw [herr, h3, h1]
    rfl

/-- Witness of C7: the second of three reported errors is dismissed. -/
theorem onErrorRemoved_removes_entry_witness :
    demoFailed.state.errors = ["e1", "e2", "e3"] ∧
    (onErrorRemoved demoFailed 1).state.errors = ["e1", "e3"] := by
  have h := onErrorRemoved_removes_entry demoFailed 1 (by decide)
  exact ⟨by decide, h.2.2.2.2.2 "e1" "e2" "e3" (by decide) rfl⟩

/-! ## Selection bridge: from the source to the tree -/

/-- C10: `onCursorChanged(pos)` calls `selectNode(pos)` on the tree viewer
once, and nothing else, when `ast` holds a tree (any tree, such as the one a
successful parse has just stored), and makes no call when `ast` is undefined;
the state object, the mark and the editor are left as they were. -/
theorem onCursorChanged_routes_to_viewer {Tree : Type} (c : Component Tree)
    (pos : Nat) :
    (∀ t : Tree, c.state.ast = some t →
      (onCursorChanged c pos).calls = c.calls ++ [Call.selectNode pos]) ∧
    (c.state.ast = none → (onCursorChanged c pos).calls = c.calls) ∧
    (∀ (id : Nat) (t : Tree), id ∈ c.pending →
      (onCursorChanged (parseResolved c id t) pos).calls
        = c.calls ++ [Call.selectNode pos]) ∧
    (onCursorChanged c pos).state = c.state ∧
    (onCursorChanged c pos).mark = c.mark ∧
    (onCursorChanged c pos).editor = c.editor := by
  refine ⟨?_, ?_, ?_, ?_, ?_, ?_⟩
  · intro t ht
    simp [onCursorChanged, ht]
  · intro ht
    simp [onCursorChanged, ht]
  · intro id t hid
    simp [onCursorChanged, parseResolved, hid]
  · unfold onCursorChanged
    split <;> rfl
  · unfold onCursorChanged
    split <;> rfl
  · unfold onCursorChanged
    split <;> rfl

/-- Witness of C10: before the first parse a cursor move at 15 calls nothing;
after the parse has delivered a tree it calls `selectNode(15)`. -/
theorem onCursorChanged_routes_to_viewer_witness :
    (onCursorChanged demo 15).calls = [] ∧
    (onCursorChanged demoParsed 15).calls
      = [Call.parse "python" "", Call.selectNode 15] := by
  have h0 := onCursorChanged_routes_to_viewer demo 15
  have h1 := onCursorChanged_routes_to_viewer demoParsed 15
  exact ⟨h0.2.1 (by decide), h1.1 7 (by decide)⟩

/-! ## Superseded requests -/

/-- C1, refuted on an example: the requests 0 and 1 are started in this order
and both are pending; the success callback of request 0 then changes `ast`
and `loading`, its failure callback changes `errors` and `loading`, and after
request 1 has failed in turn the final `ast` is still the tree of request 0. -/
theorem stale_resolution_changes_state :
    (startTwo demo).pending = [0, 1] ∧
    (parseResolved (startTwo demo) 0 7).state.ast ≠ (startTwo demo).state.ast ∧
    (parseResolved (startTwo demo) 0 7).state.loading
      ≠ (startTwo demo).state.loading ∧
    (parseRejected (startTwo demo) 0 ["late"]).state.errors
      ≠ (startTwo demo).state.errors ∧
    (parseRejected (startTwo demo) 0 ["late"]).state.loading
      ≠ (startTwo demo).state.loading ∧
    (parseRejected (parseResolved (startTwo demo) 0 7) 1 ["e"]).state.ast = some 7 := by
  decide

/-- C1 as amended: with request A started and request B started before A is
settled, both are pending, and each callback is applied when it is delivered,
whichever request it belongs to: a success stores its tree and ends the
loading, a failure stores its errors and ends the loading, the other request
stays pending, and its later callback is applied on top in the same way. -/
theorem every_resolution_is_applied {Tree : Type} (c : Component Tree)
    (tA tB : Tree) (eA eB : List String) :
    c.requests ∈ (startTwo c).pending ∧
    c.requests + 1 ∈ (startTwo c).pending ∧
    (parseResolved (startTwo c) c.requests tA).state
      = { (startTwo c).state with loading := false, ast := some tA } ∧
    (parseRejected (startTwo c) c.requests eA).state
      = { (startTwo c).state with loading := false, errors := eA } ∧
    c.requests + 1 ∈ (parseResolved (startTwo c) c.requests tA).pending ∧
    c.requests + 1 ∈ (parseRejected (startTwo c) c.requests eA).pending ∧
    (parseResolved (parseResolved (startTwo c) c.requests tA) (c.requests + 1) tB).state
      = { (startTwo c).state with loading := false, ast := some tB } ∧
    (parseRejected (parseResolved (startTwo c) c.requests tA) (c.requests + 1) eB).state
      = { (startTwo c).state with loading := false, ast := some tA, errors := eB } ∧
    (parseResolved (parseRejected (startTwo c) c.requests eA) (c.requests + 1) tB).state
      = { (startTwo c).state with loading := false, ast := some tB, errors := eA } ∧
    (parseRejected (parseRejected (startTwo c) c.requests eA) (c.requests + 1) eB).state
      = { (startTwo c).state with loading := false, errors := eB } ∧
    (parseResolved (parseResolved (startTwo c) (c.requests + 1) tB) c.requests tA).state
      = { (startTwo c).state with loading := false, ast := some tA } ∧
    (parseRejected (parseResolved (startTwo c) (c.requests + 1) tB) c.requests eA).state
      = { (startTwo c).state with loading := false, ast := some tB, errors := eA } := by
  simp [startTwo, onRunParser, parseResolved, parseRejected]

/-- Witness of C1 as amended: request 0 succeeds with the tree 7 while
request 1 is pending, then request 1 fails. -/
theorem every_resolution_is_applied_witness :
    (parseResolved (startTwo demo) 0 7).state.ast = some 7 ∧
    (parseResolved (startTwo demo) 0 7).state.loading = false ∧
    1 ∈ (parseResolved (startTwo demo) 0 7).pending ∧
    (parseRejected (parseResolved (startTwo demo) 0 7) 1 ["e"]).state.ast = some 7 ∧
    (parseRejected (parseResolved (startTwo demo) 0 7) 1 ["e"]).state.errors = ["e"] := by
  have h := every_resolution_is_applied demo 7 7 ["e"] ["e"]
  exact ⟨congrArg State.ast h.2.2.1, congrArg State.loading h.2.2.1, h.2.2.2.2.1,
    congrArg State.ast h.2.2.2.2.2.2.2.1, congrArg State.errors h.2.2.2.2.2.2.2.1⟩

/-! ## Selection bridge: from the tree to the source -/

/-- C6: from a component that holds no mark, in front of an editor without
live marks, after any sequence of node picks at most one mark is live; a
further pick of `[from_, to_)`, of zero width or not, first clears the mark
that is held (the only one that can be live, so that no mark is live in
between) and then calls `selectCode` once, and afterwards the mark returned by
that call, with the picked range, is the only live mark and the one held. -/
theorem onNodeSelected_single_highlight {Tree : Type} (c : Component Tree)
    (picks : List (Nat × Nat)) (from_ to_ : Nat)
    (hmark : c.mark = none) (hlive : c.editor.live = []) :
    (afterPicks c picks).editor.live.length ≤ 1 ∧
    (∀ m ∈ (afterPicks c picks).editor.live,
      (afterPicks c picks).mark = some m.handle) ∧
    afterPicks c (picks ++ [(from_, to_)])
      = onNodeSelected (afterPicks c picks) from_ to_ ∧
    (afterPicks c (picks ++ [(from_, to_)])).calls
      = (afterPicks c picks).calls
        ++ ((afterPicks c picks).mark.map Call.markClear).toList
        ++ [Call.selectCode from_ to_] ∧
    (clearMark (afterPicks c picks)).editor.live = [] ∧
    (afterPicks c (picks ++ [(from_, to_)])).editor.live
      = [{ handle := ((afterPicks c picks).editor.selectCode from_ to_).1,
           from_ := from_, to_ := to_ }] ∧
    (afterPicks c (picks ++ [(from_, to_)])).mark
      = some ((afterPicks c picks).editor.selectCode from_ to_).1 ∧
    (afterPicks c [(from_, to_)]).calls = c.calls ++ [Call.selectCode from_ to_] := by
  have h0 : SingleMark c := by
    refine ⟨?_, ?_⟩
    · rw [hlive]
      simp
    · intro m hm
      rw [hlive] at hm
      cases hm
  have hinv : SingleMark (afterPicks c picks) := singleMark_run _ c h0
  have hlast : afterPicks c (picks ++ [(from_, to_)])
      = onNodeSelected (afterPicks c picks) from_ to_ := by
    simp [afterPicks, run_append, run, step, pick]
  have hsel := onNodeSelected_live (afterPicks c picks) from_ to_ hinv
  refine ⟨hinv.1, hinv.2, hlast, ?_, clearMark_live_nil _ hinv, ?_, ?_, ?_⟩
  · rw [hlast]
    unfold onNodeSelected clearMark
    cases (afterPicks c picks).mark <;> simp
  · rw [hlast]
    exact hsel.1
  · rw [hlast]
    exact hsel.2
  · simp [afterPicks, run, step, pick, onNodeSelected, clearMark, hmark]

/-- Witness of C6: three picks on the mounted example, the second of zero
width; only the mark of the last pick is live. -/
theorem onNodeSelected_single_highlight_witness :
    (afterPicks demo [(10, 20), (3, 3), (0, 5)]).editor.live
      = [{ handle := 2, from_ := 0, to_ := 5 }] ∧
    (afterPicks demo [(10, 20), (3, 3)]).editor.live
      = [{ handle := 1, from_ := 3, to_ := 3 }] ∧
    (afterPicks demo [(10, 20), (3, 3), (0, 5)]).calls
      = [Call.selectCode 10 20, Call.markClear 0, Call.selectCode 3 3,
         Call.markClear 1, Call.selectCode 0 5] := by
  have h2 := onNodeSelected_single_highlight demo [(10, 20), (3, 3)] 0 5 rfl rfl
  have h1 := onNodeSelected_single_highlight demo [(10, 20)] 3 3 rfl rfl
  exact ⟨h2.2.2.2.2.2.1, h1.2.2.2.2.2.1, h2.2.2.2.1⟩

/-- C9: `clearNodeSelection` leaves the state object alone, calls `clear` on
the mark that is held and nothing else (no `selectCode`, no new mark), leaves
the editor as it is when no mark is live, and changes nothing at all when no
mark is held; in every component reached from the mount by events of any
kind, no mark is live afterwards. -/
theorem clearNodeSelection_clears_only {Tree : Type} (languages : Registry)
    (events : List (Event Tree)) :
    (∀ c : Component Tree,
      (clearNodeSelection c).state = c.state ∧
      (clearNodeSelection c).calls
        = c.calls ++ (c.mark.map Call.markClear).toList ∧
      (clearNodeSelection c).editor.created = c.editor.created ∧
      (∀ m ∈ (clearNodeSelection c).editor.live, m ∈ c.editor.live) ∧
      (c.editor.live = [] → (clearNodeSelection c).editor = c.editor) ∧
      (c.mark = none → clearNodeSelection c = c)) ∧
    (clearNodeSelection (session Tree languages events)).editor.live = [] := by
  refine ⟨?_, ?_⟩
  · intro c
    unfold clearNodeSelection clearMark
    cases hm : c.mark with
    | none => simp
    | some h =>
      simp only [Editor.clear, Option.map_some', Option.toList_some, true_and]
      refine ⟨?_, ?_, ?_⟩
      · intro m hmem
        exact (List.mem_filter.1 hmem).1
      · intro hnil
        cases hed : c.editor with
        | mk created live =>
          rw [hed] at hnil
          simp only at hnil
          simp [hnil]
      · intro hn
        cases hn
  · have h0 : SingleMark (mount Tree languages) := by
      refine ⟨by simp [mount], ?_⟩
      intro m hmem
      simp [mount] at hmem
    exact clearMark_live_nil _ (singleMark_run events _ h0)

/-- Witness of C9: the mark of a pick is cleared on request, and a request
on the freshly mounted component changes nothing. -/
theorem clearNodeSelection_clears_only_witness :
    (session Nat demoLanguages [Event.nodeSelected 10 20]).editor.live
      = [{ handle := 0, from_ := 10, to_ := 20 }] ∧
    (clearNodeSelection (session Nat demoLanguages [Event.nodeSelected 10 20])).editor.live
      = [] ∧
    (clearNodeSelection (session Nat demoLanguages [Event.nodeSelected 10 20])).calls
      = [Call.selectCode 10 20, Call.markClear 0] ∧
    clearNodeSelection demo = demo := by
  have h := @clearNodeSelection_clears_only Nat demoLanguages
    [Event.nodeSelected 10 20]
  exact ⟨by decide, h.2, (h.1 _).2.1, (h.1 demo).2.2.2.2.2 rfl⟩

/-! ## Arguments of the parse call -/

/-- C8: in every component reached from the mount by events of any kind, the
one call that `onRunParser` makes is `api.parse` with the effective language
`currentLanguage` and the `code` of the state at that moment, and this
language is not `auto`: the detected language is python throughout. -/
theorem onRunParser_never_parses_auto {Tree : Type} (languages : Registry)
    (events : List (Event Tree)) :
    (onRunParser (session Tree languages events)).calls
      = (session Tree languages events).calls
        ++ [Call.parse (currentLanguage (session Tree languages events).state)
              (session Tree languages events).state.code] ∧
    currentLanguage (session Tree languages events).state ≠ "auto" ∧
    (session Tree languages events).state.actualLanguage = "python" := by
  have hact : (session Tree languages events).state.actualLanguage = "python" :=
    actualLanguage_run events (mount Tree languages)
  refine ⟨?_, ?_, hact⟩
  · simp [onRunParser, currentLanguage]
  · unfold currentLanguage
    simp only []
    split
    · rw [hact]
      decide
    · assumption

/-- Witness of C8: after a choice of go, an edit and a return to `auto`, the
parse is requested for python and the edited code. -/
theorem onRunParser_never_parses_auto_witness :
    (onRunParser (session Nat demoLanguages
      [Event.languageChanged "go", Event.codeChange "x = 1",
       Event.languageChanged "auto"])).calls
      = [Call.parse "python" "x = 1"] :=
  (@onRunParser_never_parses_auto Nat demoLanguages
    [Event.languageChanged "go", Event.codeChange "x = 1",
     Event.languageChanged "auto"]).1

end App
